import Mathlib

/-!
Shallow embedding of the host-side QEMU VM test harness (hugelgupf/vmtest)
and proofs about its specification claims.

The Go sources are embedded as executable Lean definitions.  Go `uint32`
counters are modelled as `Nat` with explicit `% 2^32`; Go errors are
modelled with `Except`/`Option`; Go strings are Lean `String`s (lists of
characters).
-/

namespace Vmtest

/-! ## Decimal rendering (`fmt.Sprintf("%d", n)`)

Go renders unsigned integers in decimal.  `decReprAux` is fuel-based so it
is kernel-reducible; `decRepr n` uses fuel `n + 1`, which always suffices
since the argument shrinks by a factor of 10 each step. -/

/-- Decimal digit character for `n < 10`. -/
def digitChar (n : Nat) : Char :=
  Char.ofNat (48 + n)

def decReprAux : Nat → Nat → List Char
  | 0, _ => []
  | fuel + 1, n =>
    if n < 10 then [digitChar n]
    else decReprAux fuel (n / 10) ++ [digitChar (n % 10)]

/-- Decimal representation of a natural number, as Go's `%d` prints it. -/
def decRepr (n : Nat) : String :=
  String.mk (decReprAux (n + 1) n)

/-- Numeric value of a decimal digit character. -/
def charVal (c : Char) : Nat :=
  c.toNat - 48

/-- Left fold that reads a list of decimal digit characters back as a number. -/
def parseNatList (l : List Char) : Nat :=
  l.foldl (fun a c => 10 * a + charVal c) 0

lemma charVal_digitChar {n : Nat} (h : n < 10) : charVal (digitChar n) = n := by
  interval_cases n <;> rfl

lemma digitChar_isDigit {n : Nat} (h : n < 10) : (digitChar n).isDigit = true := by
  interval_cases n <;> rfl

lemma parseNatList_append_singleton (l : List Char) (c : Char) :
    parseNatList (l ++ [c]) = 10 * parseNatList l + charVal c := by
  simp [parseNatList, List.foldl_append]

lemma parseNatList_decReprAux :
    ∀ (fuel n : Nat), n < 10 ^ fuel → parseNatList (decReprAux fuel n) = n := by
  intro fuel
  induction fuel with
  | zero =>
    intro n hn
    simp at hn
    simp [hn, decReprAux, parseNatList]
  | succ f ih =>
    intro n hn
    rw [decReprAux]
    by_cases h : n < 10
    · simp only [h, if_true]
      simp [parseNatList, charVal_digitChar h]
    · simp only [h, if_false]
      rw [parseNatList_append_singleton, ih (n / 10)
        (by
          rw [Nat.div_lt_iff_lt_mul (by norm_num)]
          calc n < 10 ^ (f + 1) := hn
            _ = 10 ^ f * 10 := by ring),
        charVal_digitChar (Nat.mod_lt n (by norm_num))]
      omega

lemma parseNatList_decRepr (n : Nat) : parseNatList (decRepr n).data = n := by
  have h : n < 10 ^ (n + 1) := by
    calc n < 10 ^ n := Nat.lt_pow_self (by norm_num) n
      _ ≤ 10 ^ (n + 1) := Nat.pow_le_pow_right (by norm_num) (Nat.le_succ n)
  exact parseNatList_decReprAux (n + 1) n h

lemma decRepr_injective : Function.Injective decRepr := by
  intro m n h
  have : parseNatList (decRepr m).data = parseNatList (decRepr n).data := by rw [h]
  rwa [parseNatList_decRepr, parseNatList_decRepr] at this

lemma decReprAux_ne_nil (fuel n : Nat) : decReprAux (fuel + 1) n ≠ [] := by
  rw [decReprAux]
  by_cases h : n < 10 <;> simp [h]

lemma decRepr_data_ne_nil (n : Nat) : (decRepr n).data ≠ [] :=
  decReprAux_ne_nil n n

lemma decReprAux_all_digits :
    ∀ (fuel n : Nat), ∀ c ∈ decReprAux fuel n, c.isDigit = true := by
  intro fuel
  induction fuel with
  | zero => intro n c hc; simp [decReprAux] at hc
  | succ f ih =>
    intro n c hc
    rw [decReprAux] at hc
    by_cases h : n < 10
    · simp [h] at hc
      subst hc
      exact digitChar_isDigit h
    · simp [h] at hc
      rcases hc with hc | hc
      · exact ih (n / 10) c hc
      · subst hc
        exact digitChar_isDigit (Nat.mod_lt n (by norm_num))

lemma decRepr_all_digits (n : Nat) : ∀ c ∈ (decRepr n).data, c.isDigit = true :=
  decReprAux_all_digits (n + 1) n

/-! ## `strings.TrimRight(prefix, "0123456789")`

Go's cutset `"0123456789"` is exactly the characters for which
`Char.isDigit` is true. -/

/-- Characters of `l` with the maximal all-digit suffix removed. -/
def dropTrailingDigits (l : List Char) : List Char :=
  (l.reverse.dropWhile Char.isDigit).reverse

/-- `strings.TrimRight(s, "0123456789")`. -/
def trimRightDigits (s : String) : String :=
  String.mk (dropTrailingDigits s.data)

lemma head_dropWhile_not {p : Char → Bool} :
    ∀ (l : List Char) (c : Char), (l.dropWhile p).head? = some c → p c = false := by
  intro l
  induction l with
  | nil => intro c hc; simp [List.dropWhile] at hc
  | cons a t ih =>
    intro c hc
    rw [List.dropWhile_cons] at hc
    by_cases h : p a
    · simp [h] at hc
      exact ih c hc
    · simp [h] at hc
      rw [← hc]
      simpa using h

lemma dropTrailingDigits_no_digit_end (l : List Char) (c : Char)
    (h : (dropTrailingDigits l).getLast? = some c) : c.isDigit = false := by
  rw [dropTrailingDigits, List.getLast?_reverse] at h
  exact head_dropWhile_not _ c h

/-- A string that does not end in a digit, followed by a nonempty run of
digits, determines both parts uniquely. -/
lemma append_digits_cancel {p1 p2 d1 d2 : List Char}
    (h : p1 ++ d1 = p2 ++ d2)
    (hp1 : ∀ c, p1.getLast? = some c → c.isDigit = false)
    (hp2 : ∀ c, p2.getLast? = some c → c.isDigit = false)
    (hd1 : ∀ c ∈ d1, c.isDigit = true)
    (hd2 : ∀ c ∈ d2, c.isDigit = true) :
    p1 = p2 ∧ d1 = d2 := by
  rcases List.append_eq_append_iff.mp h with ⟨t, hp, hd⟩ | ⟨t, hp, hd⟩
  · cases t with
    | nil => refine ⟨by simp [hp], by simp [hd]⟩
    | cons x xs =>
      exfalso
      have hne : (x :: xs) ≠ ([] : List Char) := by simp
      have hlast := List.getLast?_eq_getLast (x :: xs) hne
      have hmem : (x :: xs).getLast hne ∈ x :: xs := List.getLast_mem hne
      have hdig : ((x :: xs).getLast hne).isDigit = true := by
        apply hd1
        rw [hd]
        exact List.mem_append_left _ hmem
      have hsome : p2.getLast? = some ((x :: xs).getLast hne) := by
        rw [hp, List.getLast?_append_of_ne_nil _ hne, hlast]
      have := hp2 _ hsome
      simp_all
  · cases t with
    | nil => refine ⟨by simp [hp], by simp [hd]⟩
    | cons x xs =>
      exfalso
      have hne : (x :: xs) ≠ ([] : List Char) := by simp
      have hlast := List.getLast?_eq_getLast (x :: xs) hne
      have hmem : (x :: xs).getLast hne ∈ x :: xs := List.getLast_mem hne
      have hdig : ((x :: xs).getLast hne).isDigit = true := by
        apply hd2
        rw [hd]
        exact List.mem_append_left _ hmem
      have hsome : p1.getLast? = some ((x :: xs).getLast hne) := by
        rw [hp, List.getLast?_append_of_ne_nil _ hne, hlast]
      have := hp1 _ hsome
      simp_all

/-! ## ID allocator

Source: `qemu_test.go` lines 118–137 —
```go
type IDAllocator struct {
        // maps a prefix to the maximum used suffix number.
        idx map[string]uint32
}

func NewIDAllocator() *IDAllocator {
        return &IDAllocator{idx: make(map[string]uint32)}
}

func (a *IDAllocator) ID(prefix string) string {
        prefix = strings.TrimRight(prefix, "0123456789")
        idx := a.idx[prefix]
        a.idx[prefix]++
        return fmt.Sprintf("%s%d", prefix, idx)
}
```
A Go `map[string]uint32` with its zero-value default is a total function
`String → Nat` that is `0` everywhere initially; `uint32` increments wrap,
hence the `% 2 ^ 32`. -/

structure IDAllocator where
  idx : String → Nat

def NewIDAllocator : IDAllocator :=
  ⟨fun _ => 0⟩

/-- `(a *IDAllocator) ID(prefix string) string`: functional version returning
the allocated ID together with the updated allocator. -/
def IDAllocator.ID (a : IDAllocator) (pfx : String) : String × IDAllocator :=
  let p := trimRightDigits pfx
  let i := a.idx p
  (p ++ decRepr i, ⟨fun q => if q = p then (i + 1) % 2 ^ 32 else a.idx q⟩)

/-- Runs a sequence of `ID` calls against one allocator, collecting the
returned IDs in order. -/
def runIDs (a : IDAllocator) : List String → List String
  | [] => []
  | p :: ps =>
    let r := a.ID p
    r.1 :: runIDs r.2 ps

/-- Specification-side closed form: the ID returned for `p` after the call
history `seen` is the normalized prefix followed by the number of earlier
calls sharing that normalized prefix, reduced `mod 2^32` (uint32 counter). -/
def specID (seen : List String) (p : String) : String :=
  trimRightDigits p ++
    decRepr (((seen.map trimRightDigits).count (trimRightDigits p)) % 2 ^ 32)

/-- Closed form of a whole run of `ID` calls. -/
def specRun (seen : List String) : List String → List String
  | [] => []
  | p :: ps => specID seen p :: specRun (seen ++ [p]) ps

lemma runIDs_eq_specRun :
    ∀ (l seen : List String) (a : IDAllocator),
      (∀ q, a.idx q = ((seen.map trimRightDigits).count q) % 2 ^ 32) →
      runIDs a l = specRun seen l := by
  intro l
  induction l with
  | nil => intro seen a _; rfl
  | cons p ps ih =>
    intro seen a ha
    rw [runIDs, specRun]
    refine congrArg₂ _ ?_ ?_
    · show trimRightDigits p ++ decRepr (a.idx (trimRightDigits p)) = specID seen p
      rw [ha, specID]
    · apply ih (seen ++ [p])
      intro q
      show (if q = trimRightDigits p then (a.idx (trimRightDigits p) + 1) % 2 ^ 32
            else a.idx q) = _
      rw [List.map_append, List.count_append]
      by_cases hq : q = trimRightDigits p
      · subst hq
        rw [if_pos rfl, ha]
        have h1 : List.count (trimRightDigits p) (List.map trimRightDigits [p]) = 1 := by
          simp
        rw [h1, Nat.mod_add_mod]
      · rw [if_neg hq, ha]
        have h0 : List.count q (List.map trimRightDigits [p]) = 0 := by
          simp [List.count_cons, hq]
        rw [h0, Nat.add_zero]

lemma string_ext {a b : String} (h : a.data = b.data) : a = b := by
  cases a; cases b; simp only at h; rw [h]

/-- A normalized prefix followed by a rendered counter determines both. -/
lemma trim_append_decRepr_inj {s t : String} {m n : Nat}
    (h : trimRightDigits s ++ decRepr m = trimRightDigits t ++ decRepr n) :
    trimRightDigits s = trimRightDigits t ∧ m = n := by
  have hdata : (trimRightDigits s).data ++ (decRepr m).data
      = (trimRightDigits t).data ++ (decRepr n).data := by
    rw [← String.data_append, ← String.data_append, h]
  have hcancel := append_digits_cancel hdata
    (fun c hc => dropTrailingDigits_no_digit_end s.data c hc)
    (fun c hc => dropTrailingDigits_no_digit_end t.data c hc)
    (decRepr_all_digits m) (decRepr_all_digits n)
  refine ⟨string_ext hcancel.1, decRepr_injective (string_ext hcancel.2)⟩

/-- Each element of `specRun seen l` is the normalized prefix of some input
in `l` followed by a counter in the window determined by the call history. -/
lemma mem_specRun :
    ∀ (l seen : List String) (x : String), x ∈ specRun seen l →
      ∃ q ∈ l, ∃ c,
        x = trimRightDigits q ++ decRepr (c % 2 ^ 32) ∧
        ((seen.map trimRightDigits).count (trimRightDigits q)) ≤ c ∧
        c < ((seen.map trimRightDigits).count (trimRightDigits q)) +
            ((l.map trimRightDigits).count (trimRightDigits q)) := by
  intro l
  induction l with
  | nil => intro seen x hx; simp [specRun] at hx
  | cons p ps ih =>
    intro seen x hx
    rw [specRun, List.mem_cons] at hx
    rcases hx with hx | hx
    · refine ⟨p, List.mem_cons_self p ps,
        ((seen.map trimRightDigits).count (trimRightDigits p)), hx, le_refl _, ?_⟩
      have : 0 < ((p :: ps).map trimRightDigits).count (trimRightDigits p) := by
        rw [List.map_cons]
        exact List.count_pos_iff.mpr (List.mem_cons_self _ _)
      omega
    · obtain ⟨q, hq, c, hxc, hlo, hhi⟩ := ih (seen ++ [p]) x hx
      refine ⟨q, List.mem_cons_of_mem p hq, c, hxc, ?_, ?_⟩
      · refine le_trans ?_ hlo
        rw [List.map_append, List.count_append]
        omega
      · rw [List.map_append, List.count_append] at hhi
        rw [List.map_cons, List.count_cons]
        have : List.count (trimRightDigits q) (List.map trimRightDigits [p])
            = if trimRightDigits p == trimRightDigits q then 1 else 0 := by
          simp [List.count_cons, BEq.comm]
        omega

/-- If no normalized prefix is due to appear more than its remaining uint32
budget allows, a run produces pairwise distinct IDs. -/
lemma nodup_specRun :
    ∀ (l seen : List String),
      (∀ q ∈ l, ((seen.map trimRightDigits).count (trimRightDigits q)) +
                ((l.map trimRightDigits).count (trimRightDigits q)) ≤ 2 ^ 32) →
      (specRun seen l).Nodup := by
  intro l
  induction l with
  | nil => intro seen _; simp [specRun]
  | cons p ps ih =>
    intro seen hbound
    rw [specRun, List.nodup_cons]
    constructor
    · intro hmem
      obtain ⟨q, hq, c, hxc, hlo, hhi⟩ := mem_specRun ps (seen ++ [p]) _ hmem
      have hb := hbound p (List.mem_cons_self p ps)
      have hcount : 0 < (((p :: ps).map trimRightDigits).count (trimRightDigits p)) := by
        rw [List.map_cons]
        exact List.count_pos_iff.mpr (List.mem_cons_self _ _)
      have hcs_lt : ((seen.map trimRightDigits).count (trimRightDigits p)) < 2 ^ 32 := by
        omega
      have heq := hxc
      rw [specID] at heq
      obtain ⟨hpq, hc⟩ := trim_append_decRepr_inj heq
      rw [← hpq] at hlo hhi
      rw [List.map_append, List.count_append] at hlo hhi
      have h1 : List.count (trimRightDigits p) (List.map trimRightDigits [p]) = 1 := by
        simp
      rw [h1] at hlo hhi
      have h2 : (((p :: ps).map trimRightDigits).count (trimRightDigits p))
          = ((ps.map trimRightDigits).count (trimRightDigits p)) + 1 := by
        rw [List.map_cons, List.count_cons]
        simp
      rw [h2] at hb
      have hlt : c < 2 ^ 32 := by omega
      rw [Nat.mod_eq_of_lt hlt, Nat.mod_eq_of_lt hcs_lt] at hc
      omega
    · apply ih (seen ++ [p])
      intro q hq
      have hb := hbound q (List.mem_cons_of_mem p hq)
      rw [List.map_append, List.count_append]
      rw [List.map_cons, List.count_cons] at hb
      by_cases hpq : trimRightDigits p = trimRightDigits q
      · have h1 : List.count (trimRightDigits q) (List.map trimRightDigits [p]) = 1 := by
          simp [hpq]
        have h2 : (if (trimRightDigits p == trimRightDigits q) = true then 1 else 0) = 1 := by
          simp [hpq]
        rw [h1]
        rw [h2] at hb
        omega
      · have h1 : List.count (trimRightDigits q) (List.map trimRightDigits [p]) = 0 := by
          rw [List.map_cons, List.map_nil, List.count_cons, List.count_nil]
          simp only [Nat.zero_add]
          rw [if_neg]
          simp only [beq_iff_eq]
          exact hpq
        have h2 : (if (trimRightDigits p == trimRightDigits q) = true then 1 else 0) = 0 := by
          rw [if_neg]
          simp only [beq_iff_eq]
          exact hpq
        rw [h1]
        rw [h2] at hb
        omega

lemma runIDs_replicate :
    ∀ (n c : Nat) (a : IDAllocator), a.idx "p" = c → c < 2 ^ 32 →
      runIDs a (List.replicate n "p") =
        (List.range n).map (fun k => "p" ++ decRepr ((c + k) % 2 ^ 32)) := by
  intro n
  induction n with
  | zero => intro c a _ _; rfl
  | succ m ih =>
    intro c a ha hc
    rw [List.replicate_succ, runIDs, List.range_succ_eq_map, List.map_cons, List.map_map]
    refine congrArg₂ _ ?_ ?_
    · show trimRightDigits "p" ++ decRepr (a.idx (trimRightDigits "p")) = _
      have ht : trimRightDigits "p" = "p" := rfl
      rw [ht, ha, Nat.add_zero, Nat.mod_eq_of_lt hc]
    · have hstep : (a.ID "p").2.idx "p" = (c + 1) % 2 ^ 32 := by
        show (if "p" = trimRightDigits "p" then (a.idx (trimRightDigits "p") + 1) % 2 ^ 32
              else a.idx "p") = _
        have ht : trimRightDigits "p" = "p" := rfl
        rw [ht, if_pos rfl, ha]
      rw [ih ((c + 1) % 2 ^ 32) _ hstep (Nat.mod_lt _ (by norm_num))]
      refine List.map_congr_left ?_
      intro k _
      simp only [Function.comp_apply]
      rw [Nat.mod_add_mod]
      have harg : c + 1 + k = c + (k + 1) := by omega
      rw [harg]

lemma runIDs_replicate_wrap :
    runIDs NewIDAllocator (List.replicate (2 ^ 32 + 1) "p") =
      (List.range (2 ^ 32 + 1)).map (fun k => "p" ++ decRepr (k % 2 ^ 32)) := by
  have h := runIDs_replicate (2 ^ 32 + 1) 0 NewIDAllocator rfl (by norm_num)
  rw [h]
  refine List.map_congr_left ?_
  intro k _
  rw [Nat.zero_add]

lemma getD_map_range (f : Nat → String) (n k : Nat) (h : k < n) :
    ((List.range n).map f).getD k "" = f k := by
  rw [List.getD_eq_getElem?_getD, List.getElem?_map, List.getElem?_range h]
  rfl

/-- **C6, counterexample.** The claim says the per-prefix counter "starts at 0,
and increases by 1 on each call with the same stripped prefix"; since the Go
counter is a `uint32`, after `2^32` calls with prefix `"p"` the next ID is
`"p0"` again rather than `"p4294967296"`, so the counter does not increase on
that call. -/
theorem c6_counterexample :
    (runIDs NewIDAllocator (List.replicate (2 ^ 32 + 1) "p")).getD (2 ^ 32) ""
        = "p" ++ decRepr 0
    ∧ (runIDs NewIDAllocator (List.replicate (2 ^ 32 + 1) "p")).getD 0 ""
        = "p" ++ decRepr 0
    ∧ "p" ++ decRepr 0 ≠ "p" ++ decRepr (2 ^ 32) := by
  refine ⟨?_, ?_, by decide⟩
  · rw [runIDs_replicate_wrap, getD_map_range _ _ _ (by norm_num)]
    norm_num
  · rw [runIDs_replicate_wrap, getD_map_range _ _ _ (by norm_num)]
    norm_num

/-- **C6 (amended).** For every sequence of `ID(prefix)` calls on a single
allocator, the returned string is the prefix with all trailing decimal digits
stripped, concatenated with the number of earlier calls whose stripped prefix
is the same, reduced modulo `2^32` (the counter is a Go `uint32`, so it starts
at 0, increases by 1 per call with the same stripped prefix, and wraps to 0
after `2^32 - 1`); in particular the input sequence
pipe, pipe, pipe0, pipe45, 0pipe34, pip, id, pip yields
pipe0, pipe1, pipe2, pipe3, 0pipe0, pip0, id0, pip1. -/
theorem c6_id_allocator :
    (∀ l : List String, runIDs NewIDAllocator l = specRun [] l)
    ∧ runIDs NewIDAllocator ["pipe", "pipe", "pipe0", "pipe45", "0pipe34", "pip", "id", "pip"]
        = ["pipe0", "pipe1", "pipe2", "pipe3", "0pipe0", "pip0", "id0", "pip1"] := by
  constructor
  · intro l
    exact runIDs_eq_specRun l [] NewIDAllocator (fun q => rfl)
  · decide

/-- **C10, counterexample.** IDs are not pairwise distinct for every finite
call sequence: the `uint32` counter wraps, so `2^32 + 1` calls with the same
prefix repeat the ID `"p0"` at positions `0` and `2^32`. -/
theorem c10_counterexample :
    ¬ (runIDs NewIDAllocator (List.replicate (2 ^ 32 + 1) "p")).Nodup := by
  rw [runIDs_replicate_wrap, List.range_succ, List.map_append]
  intro hnd
  rw [List.nodup_append] at hnd
  have hd := hnd.2.2
  have hmem : ("p" ++ decRepr (2 ^ 32 % 2 ^ 32))
      ∈ (List.range (2 ^ 32)).map (fun k => "p" ++ decRepr (k % 2 ^ 32)) := by
    apply List.mem_map.mpr
    refine ⟨0, List.mem_range.mpr (by norm_num), ?_⟩
    norm_num
  exact hd hmem (by simp)

/-- **C10 (amended).** For a single `IDAllocator` and any finite sequence of
`ID(prefix)` calls in which each stripped prefix occurs at most `2^32` times
(so the `uint32` counter never wraps), the returned ID strings are pairwise
distinct: a stripped prefix never ends in a decimal digit, so IDs from
different stripped prefixes differ, and IDs from the same stripped prefix
carry distinct counter values. -/
theorem c10_ids_distinct (l : List String)
    (hbound : ∀ q ∈ l, ((l.map trimRightDigits).count (trimRightDigits q)) ≤ 2 ^ 32) :
    (runIDs NewIDAllocator l).Nodup := by
  rw [runIDs_eq_specRun l [] NewIDAllocator (fun q => rfl)]
  apply nodup_specRun
  intro q hq
  simpa using hbound q hq

/-- Witness for `c10_ids_distinct` at a concrete call sequence. -/
theorem c10_ids_distinct_witness :
    (runIDs NewIDAllocator ["pipe", "pipe", "pipe0", "pip"]).Nodup :=
  c10_ids_distinct ["pipe", "pipe", "pipe0", "pip"] (by decide)

/-! ## Options and the command-line assembler

Source: `src/qemu/qemu.go`.  Errors are identified by the source's error
variable names. -/

inductive QemuErr where
  | ErrKernelRequiredForArgs
  | ErrNoGuestArch
  | ErrUnsupportedGuestArch (arch : String)
  | ErrInvalidTimeout
  | ErrInvalid (what : String)
  deriving DecidableEq, Repr

/-- `Options` (qemu.go lines 206–253).  `SerialOutput`, `Tasks` and
`ExtraFiles` hold host OS handles and goroutines; the claims treated here
never read them, so they are omitted from the record.  `VMTimeout` is a Go
`time.Duration` in nanoseconds. -/
structure Options where
  arch : String := ""
  QEMUCommand : String := ""
  Kernel : String := ""
  Initramfs : String := ""
  KernelArgs : String := ""
  QEMUArgs : List String := []
  VMTimeout : Nat := 0
  deriving DecidableEq, Repr

/-- Whitespace characters for `strings.Fields` (the ASCII ones are the only
ones that occur in this code base). -/
def isGoSpace (c : Char) : Bool :=
  c = ' ' || c = '\t' || c = '\n' || c = '\r'

def goFieldsAux : List Char → List Char → List String
  | [], acc => if acc.isEmpty then [] else [String.mk acc.reverse]
  | c :: rest, acc =>
    if isGoSpace c then
      if acc.isEmpty then goFieldsAux rest []
      else String.mk acc.reverse :: goFieldsAux rest []
    else goFieldsAux rest (c :: acc)

/-- Go's `strings.Fields`: the maximal runs of non-whitespace characters. -/
def goFields (s : String) : List String :=
  goFieldsAux s.data []

/-- Go's `strings.Join(elems, sep)`. -/
def goJoin (sep : String) : List String → String
  | [] => ""
  | [x] => x
  | x :: rest => x ++ sep ++ goJoin sep rest

/-- `(o *Options) AppendKernel(s ...string)` (qemu.go lines 380–391). -/
def Options.AppendKernel (o : Options) (s : List String) : Options :=
  if s.length = 0 then o
  else
    let t := goJoin " " s
    if o.KernelArgs.length = 0 then { o with KernelArgs := t }
    else { o with KernelArgs := o.KernelArgs ++ " " ++ t }

/-- `(o *Options) AppendQEMU(s ...string)` (qemu.go lines 393–396). -/
def Options.AppendQEMU (o : Options) (s : List String) : Options :=
  { o with QEMUArgs := o.QEMUArgs ++ s }

/-- `SupportedGuestArches` (qemu.go lines 56–62). -/
def SupportedGuestArches : List String :=
  ["x86_64", "i386", "aarch64", "arm"]

/-- `(o *Options) setArch(arch GuestArch)` (qemu.go lines 369–378). -/
def Options.setArch (o : Options) (arch : String) : Except QemuErr Options :=
  if arch.length = 0 then .error .ErrNoGuestArch
  else if ¬ SupportedGuestArches.contains arch then
    .error (.ErrUnsupportedGuestArch arch)
  else .ok { o with arch := arch }

/-- `(g GuestArch) Arch()` (qemu.go lines 74–80): empty means "use the
`VMTEST_QEMU_ARCH` environment variable". -/
def GuestArch.Arch (g : String) (env : String → String) : String :=
  if g = "" then env "VMTEST_QEMU_ARCH" else g

/-- `Fn` (qemu.go line 85): a configurator takes the ID allocator and the
options; mutation becomes explicit state passing, a non-nil error becomes
`Except.error`. -/
def Fn :=
  IDAllocator × Options → Except QemuErr (IDAllocator × Options)

/-- `WithQEMUCommand(cmd string)` (qemu.go lines 98–103). -/
def WithQEMUCommand (cmd : String) : Fn :=
  fun s => .ok (s.1, { s.2 with QEMUCommand := cmd })

/-- `WithKernel(kernel string)` (qemu.go lines 106–111). -/
def WithKernel (kernel : String) : Fn :=
  fun s => .ok (s.1, { s.2 with Kernel := kernel })

/-- `WithInitramfs(initramfs string)` (qemu.go lines 114–119). -/
def WithInitramfs (initramfs : String) : Fn :=
  fun s => .ok (s.1, { s.2 with Initramfs := initramfs })

/-- `WithAppendKernel(args ...string)` (qemu.go lines 122–127): joins the
arguments with spaces and appends the single joined string. -/
def WithAppendKernel (args : List String) : Fn :=
  fun s => .ok (s.1, s.2.AppendKernel [goJoin " " args])

/-- `OptionsFor(archFn ArchFn, fns ...Fn)` (qemu.go lines 160–184), with the
process environment passed explicitly.  `GuestArch.Setup` is a no-op
(qemu.go lines 69–72). -/
def OptionsFor (env : String → String) (archFn : String) (fns : List Fn) :
    Except QemuErr Options := do
  let alloc := NewIDAllocator
  let o : Options :=
    { QEMUCommand := env "VMTEST_QEMU"
      Kernel := env "VMTEST_KERNEL"
      Initramfs := env "VMTEST_INITRAMFS"
      QEMUArgs := ["-nographic"] }
  let o ← o.setArch (GuestArch.Arch archFn env)
  let st ← fns.foldlM (fun st f => f st) (alloc, o)
  return st.2

/-- `(o *Options) Cmdline()` (qemu.go lines 398–423). -/
def Options.Cmdline (o : Options) : Except QemuErr (List String) := do
  let mut args : List String := []
  args := args ++ goFields o.QEMUCommand
  args := args ++ o.QEMUArgs
  if o.Kernel.length > 0 then
    args := args ++ ["-kernel", o.Kernel]
    if o.KernelArgs.length ≠ 0 then
      args := args ++ ["-append", o.KernelArgs]
  else if o.KernelArgs.length ≠ 0 then
    throw QemuErr.ErrKernelRequiredForArgs
  if o.Initramfs.length ≠ 0 then
    args := args ++ ["-initrd", o.Initramfs]
  return args

/-- **C5.** For every Options value, `Cmdline()` returns the argv consisting
of, in exactly this order: the whitespace-split fields of QEMUCommand, the
QEMUArgs list, then `-kernel <kernel>` if kernel is non-empty, then
`-append <kernelArgs>` if kernelArgs is non-empty, then `-initrd <initramfs>`
if initramfs is non-empty; and it fails with the kernel-required-for-args
error exactly when kernelArgs is non-empty and kernel is empty.  For arch
x86_64 with `WithQEMUCommand("qemu")` and `WithKernel("./foobar")` the argv
is `qemu -nographic -kernel ./foobar`. -/
theorem c5_cmdline :
    (∀ o : Options,
      o.Cmdline =
        if o.Kernel.length = 0 ∧ o.KernelArgs.length ≠ 0 then
          .error QemuErr.ErrKernelRequiredForArgs
        else
          .ok (goFields o.QEMUCommand ++ o.QEMUArgs
            ++ (if o.Kernel.length > 0 then ["-kernel", o.Kernel] else [])
            ++ (if o.Kernel.length > 0 ∧ o.KernelArgs.length ≠ 0 then
                  ["-append", o.KernelArgs] else [])
            ++ (if o.Initramfs.length ≠ 0 then ["-initrd", o.Initramfs] else [])))
    ∧ (do
        let o ← OptionsFor (fun _ => "") "x86_64" [WithQEMUCommand "qemu", WithKernel "./foobar"]
        o.Cmdline) = .ok ["qemu", "-nographic", "-kernel", "./foobar"] := by
  constructor
  · intro o
    by_cases hk : o.Kernel.length = 0 <;> by_cases ha : o.KernelArgs.length = 0 <;>
      by_cases hi : o.Initramfs.length = 0 <;>
      simp [Options.Cmdline, hk, ha, hi, Nat.pos_iff_ne_zero, pure, Except.pure,
        Functor.map, Except.map, throw, throwThe, MonadExceptOf.throw, bind, Except.bind]
  · rfl

/-! ## The event-channel reader's IO adapter

Source: `qemu_test.go` lines 296–315 (`ptmClosedErrorConverter`). -/

/-- Go error values that can come out of an `io.Reader`, compared by value as
`errors.As` + struct equality do.  `errno` is the Linux errno number. -/
inductive GoIOErr where
  | pathError (op path : String) (errno : Nat)
  | eof
  | other (msg : String)
  deriving DecidableEq, Repr

/-- `ptmClosed` (qemu_test.go lines 302–306): the `os.PathError{Op: "read",
Path: "/dev/ptmx", Err: syscall.EIO}` seen on Linux when reading from a ptm
whose pts side has closed.  `EIO` is errno 5. -/
def ptmClosed : GoIOErr :=
  .pathError "read" "/dev/ptmx" 5

/-- `(c ptmClosedErrorConverter) Read(p []byte) (int, error)`
(qemu_test.go lines 308–315): the underlying read result `(n, err)` is
returned unchanged unless `err` is a path error equal to `ptmClosed`, in
which case `(n, io.EOF)` is returned. -/
def ptmClosedErrorConverterRead (res : Nat × Option GoIOErr) : Nat × Option GoIOErr :=
  match res with
  | (n, some e) =>
    match e with
    | .pathError op path errno =>
      if GoIOErr.pathError op path errno = ptmClosed then (n, some .eof)
      else (n, some e)
    | _ => (n, some e)
  | (n, none) => (n, none)

/-- **C7.** A read outcome whose error is the ptm-closed error is converted
into EOF (with the byte count preserved), and every other outcome — any byte
count with no error or with any other error — is passed through unchanged. -/
theorem c7_ptm_closed_to_eof :
    (∀ n : Nat, ptmClosedErrorConverterRead (n, some ptmClosed) = (n, some .eof))
    ∧ ∀ (n : Nat) (e : Option GoIOErr), e ≠ some ptmClosed →
        ptmClosedErrorConverterRead (n, e) = (n, e) := by
  constructor
  · intro n
    rfl
  · intro n e he
    match e with
    | none => rfl
    | some (.pathError op path errno) =>
      have hne : GoIOErr.pathError op path errno ≠ ptmClosed := fun h => he (by rw [h])
      simp [ptmClosedErrorConverterRead, hne]
    | some .eof => rfl
    | some (.other m) => rfl

/-- Witness for `c7_ptm_closed_to_eof` at concrete read outcomes. -/
theorem c7_ptm_closed_to_eof_witness :
    ptmClosedErrorConverterRead (17, some ptmClosed) = (17, some .eof)
    ∧ ptmClosedErrorConverterRead (4, some (.other "connection reset")) =
        (4, some (.other "connection reset")) :=
  ⟨c7_ptm_closed_to_eof.1 17,
   c7_ptm_closed_to_eof.2 4 (some (.other "connection reset")) (by decide)⟩

/-! ## Event wire format

Source: `src/internal/eventchannel/event.go` —
```go
type Action string

const (
        ActionGuestEvent Action = "guestevent"
        ActionDone       Action = "done"
)

type Event[T any] struct {
        GuestAction Action `json:"hugelgupf_vmtest_guest_action"`
        Actual      T      `json:",omitempty"`
}
```
and the guest emitter's `sendEvent` (json.Marshal of the event followed by a
single `\n`).  Go's `encoding/json` serializes a struct as an object whose
keys are, in field order, the tag name when one is given (here
`hugelgupf_vmtest_guest_action`) and the Go field name otherwise (here
`Actual`); a `,omitempty` field is dropped when its value is empty.  The
encoding of the payload type `T` is passed in as `enc`/`isEmpty`. -/

/-- An `Action` is a Go string; these are the two constants. -/
def ActionGuestEvent : String := "guestevent"

def ActionDone : String := "done"

structure Event (T : Type) where
  guestAction : String
  actual : T
  deriving DecidableEq, Repr

inductive Json where
  | null
  | str (s : String)
  | num (n : Int)
  | bool (b : Bool)
  | arr (elems : List Json)
  | obj (fields : List (String × Json))

/-- JSON string escaping.  (Go additionally escapes control characters and,
by default, the HTML characters `<`, `>`, `&`; none of those occur in this
protocol's fixed strings.) -/
def escapeChar (c : Char) : List Char :=
  if c = '"' then ['\\', '"']
  else if c = '\\' then ['\\', '\\']
  else [c]

def renderString (s : String) : String :=
  "\"" ++ String.mk (s.data.map escapeChar).flatten ++ "\""

def renderInt (n : Int) : String :=
  if n < 0 then "-" ++ decRepr n.natAbs else decRepr n.natAbs

mutual

def Json.render : Json → String
  | .null => "null"
  | .str s => renderString s
  | .num n => renderInt n
  | .bool b => cond b "true" "false"
  | .arr es => "[" ++ Json.renderElems es ++ "]"
  | .obj fs => "\x7b" ++ Json.renderFields fs ++ "\x7d"

def Json.renderElems : List Json → String
  | [] => ""
  | [j] => j.render
  | j :: js => j.render ++ "," ++ Json.renderElems js

def Json.renderFields : List (String × Json) → String
  | [] => ""
  | [(k, v)] => renderString k ++ ":" ++ v.render
  | (k, v) :: fs => renderString k ++ ":" ++ v.render ++ "," ++ Json.renderFields fs

end

/-- `json.Marshal` of an `Event[T]` value, given the payload encoding. -/
def marshalEvent {T : Type} (enc : T → Json) (isEmpty : T → Bool) (e : Event T) : Json :=
  .obj ([("hugelgupf_vmtest_guest_action", .str e.guestAction)]
    ++ if isEmpty e.actual then [] else [("Actual", enc e.actual)])

/-- The bytes the guest emitter writes for one event: the marshalled JSON
object followed by one newline (guest `sendEvent`). -/
def eventWireLine {T : Type} (enc : T → Json) (isEmpty : T → Bool) (e : Event T) : String :=
  (marshalEvent enc isEmpty e).render ++ "\n"

/-- First binding of `key` in a JSON object's field list.  (The marshalled
event objects never repeat a key.) -/
def lookupField (fs : List (String × Json)) (key : String) : Option Json :=
  match fs with
  | [] => none
  | (k, v) :: rest => if k = key then some v else lookupField rest key

/-- `json.Unmarshal` into a zero-valued `Event[T]` as the host decoder does:
the value must be an object; a field without a matching key keeps its zero
value; `GuestAction` (key `hugelgupf_vmtest_guest_action`) requires a JSON
string; `Actual` is decoded by `dec`. -/
def unmarshalEvent {T : Type} (dec : Json → Option T) (zero : T) : Json → Option (Event T)
  | .obj fs =>
    (match lookupField fs "hugelgupf_vmtest_guest_action" with
     | none => some ""
     | some (.str s) => some s
     | some _ => none).bind fun ga =>
    (match lookupField fs "Actual" with
     | none => some zero
     | some j => dec j).map fun ac => ⟨ga, ac⟩
  | _ => none

/-- The field list of a JSON object (and `[]` on any other value). -/
def jsonObjFields : Json → List (String × Json)
  | .obj fs => fs
  | _ => []

/-- **C1, counterexample.** The guest serializes the terminal event as
`{"hugelgupf_vmtest_guest_action":"done"}` — the action key is the struct
tag `hugelgupf_vmtest_guest_action`, not `guestAction` as the claim states
(shown here at payload type `int`, whose zero value is empty and therefore
omitted). -/
theorem c1_counterexample :
    eventWireLine Json.num (fun t : Int => t == 0) ⟨ActionDone, 0⟩
        = "\x7b\"hugelgupf_vmtest_guest_action\":\"done\"\x7d\n"
    ∧ eventWireLine Json.num (fun t : Int => t == 0) ⟨ActionDone, 0⟩
        ≠ "\x7b\"guestAction\":\"done\"\x7d\n" := by
  constructor
  · simp [eventWireLine, marshalEvent, Json.render, Json.renderFields, renderString,
      escapeChar, ActionDone]
  · intro h
    rw [show eventWireLine Json.num (fun t : Int => t == 0) ⟨ActionDone, 0⟩
        = "\x7b\"hugelgupf_vmtest_guest_action\":\"done\"\x7d\n" from by
      simp [eventWireLine, marshalEvent, Json.render, Json.renderFields, renderString,
        escapeChar, ActionDone]] at h
    exact absurd h (by decide)

/-- **C1 (amended).** For every event type T, each event exchanged on the
event channel is one newline-terminated JSON object whose action key is named
`hugelgupf_vmtest_guest_action` (the struct tag): guest events are serialized
as `{"hugelgupf_vmtest_guest_action":"guestevent","Actual":<T-shaped JSON>}`
(the payload key is the Go field name `Actual`, omitted when the payload is
empty), the terminal event as `{"hugelgupf_vmtest_guest_action":"done"}`
when T's zero value is empty, no key named `guestAction` is present, and the
host's Event<T> decoder decodes exactly this shape back to the event. -/
theorem c1_event_wire_format :
    (∀ (T : Type) (enc : T → Json) (isEmpty : T → Bool) (e : Event T),
      lookupField (jsonObjFields (marshalEvent enc isEmpty e))
          "hugelgupf_vmtest_guest_action" = some (.str e.guestAction)
      ∧ lookupField (jsonObjFields (marshalEvent enc isEmpty e)) "guestAction" = none)
    ∧ (∀ (T : Type) (enc : T → Json) (isEmpty : T → Bool) (zero : T),
        isEmpty zero = true →
        eventWireLine enc isEmpty ⟨ActionDone, zero⟩
          = "\x7b\"hugelgupf_vmtest_guest_action\":\"done\"\x7d\n")
    ∧ (∀ (T : Type) (enc : T → Json) (isEmpty : T → Bool) (t : T),
        isEmpty t = false →
        eventWireLine enc isEmpty ⟨ActionGuestEvent, t⟩
          = "\x7b\"hugelgupf_vmtest_guest_action\":\"guestevent\",\"Actual\":"
            ++ (enc t).render ++ "\x7d\n")
    ∧ (∀ (T : Type) (enc : T → Json) (dec : Json → Option T) (isEmpty : T → Bool)
         (zero : T) (e : Event T),
        (∀ t, dec (enc t) = some t) →
        (isEmpty e.actual = true → e.actual = zero) →
        unmarshalEvent dec zero (marshalEvent enc isEmpty e) = some e) := by
  have hk1 : ("hugelgupf_vmtest_guest_action" : String) ≠ "guestAction" := by decide
  have hk2 : ("hugelgupf_vmtest_guest_action" : String) ≠ "Actual" := by decide
  have hk3 : ("Actual" : String) ≠ "guestAction" := by decide
  refine ⟨?_, ?_, ?_, ?_⟩
  · intro T enc isEmpty e
    by_cases hem : isEmpty e.actual <;>
      simp [marshalEvent, jsonObjFields, lookupField, hem, hk1, hk3]
  · intro T enc isEmpty zero hz
    simp [eventWireLine, marshalEvent, hz, Json.render, Json.renderFields,
      renderString, escapeChar, ActionDone]
  · intro T enc isEmpty t ht
    simp [eventWireLine, marshalEvent, ht, Json.render, Json.renderFields,
      renderString, escapeChar, ActionGuestEvent]
    generalize (enc t).render = r
    apply string_ext
    simp only [String.data_append, List.append_assoc]
    rw [← List.append_assoc, ← List.append_assoc]
    rw [show ("\x7b" : String).data
          ++ ("\"hugelgupf_vmtest_guest_action\":\"guestevent\"," : String).data
          ++ ("\"Actual\":" : String).data
        = ("\x7b\"hugelgupf_vmtest_guest_action\":\"guestevent\",\"Actual\":" : String).data
        from by decide]
    rw [show ("\x7d" : String).data ++ ("\n" : String).data = ("\x7d\n" : String).data
        from by decide]
  · intro T enc dec isEmpty zero e hdec hzero
    by_cases hem : isEmpty e.actual
    · have hz := hzero hem
      simp only [marshalEvent, if_pos hem, List.append_nil, unmarshalEvent]
      simp only [lookupField, if_pos rfl, if_neg hk2]
      simp [hz]
      rw [← hz]
    · simp only [marshalEvent, if_neg hem, unmarshalEvent]
      simp only [lookupField, if_pos rfl, if_neg hk2]
      simp [hdec]

/-- Witness for `c1_event_wire_format` at payload type `int` with the
payloads 0 (empty) and 7. -/
theorem c1_event_wire_format_witness :
    (lookupField (jsonObjFields (marshalEvent Json.num (fun t : Int => t == 0)
        ⟨ActionGuestEvent, 7⟩)) "hugelgupf_vmtest_guest_action"
      = some (.str ActionGuestEvent))
    ∧ eventWireLine Json.num (fun t : Int => t == 0) ⟨ActionDone, 0⟩
        = "\x7b\"hugelgupf_vmtest_guest_action\":\"done\"\x7d\n"
    ∧ eventWireLine Json.num (fun t : Int => t == 0) ⟨ActionGuestEvent, 7⟩
        = "\x7b\"hugelgupf_vmtest_guest_action\":\"guestevent\",\"Actual\":"
          ++ (Json.num 7).render ++ "\x7d\n"
    ∧ unmarshalEvent (fun j => match j with | .num n => some n | _ => none) 0
        (marshalEvent Json.num (fun t : Int => t == 0) ⟨ActionGuestEvent, 7⟩)
        = some ⟨ActionGuestEvent, 7⟩ :=
  ⟨(c1_event_wire_format.1 Int Json.num (fun t => t == 0) ⟨ActionGuestEvent, 7⟩).1,
   c1_event_wire_format.2.1 Int Json.num (fun t => t == 0) 0 (by decide),
   c1_event_wire_format.2.2.1 Int Json.num (fun t => t == 0) 7 (by decide),
   c1_event_wire_format.2.2.2 Int Json.num
     (fun j => match j with | .num n => some n | _ => none) (fun t => t == 0) 0
     ⟨ActionGuestEvent, 7⟩ (fun t => rfl) (by decide)⟩

/-! ## The event-channel reader task

Source: `qemu_test.go` lines 334–382 (`EventChannel`), with
`eventchannel.ProcessJSONByLine` from `src/internal/eventchannel/event.go`.
The task body is:

```go
err := eventchannel.ProcessJSONByLine[...](..., func(c eventchannel.Event[T]) {
        switch c.GuestAction {
        case eventchannel.ActionGuestEvent:
                events <- c.Actual
        case eventchannel.ActionDone:
                close(events)
                gotDone = true
        }
})
if err != nil {
        if !gotDone {
                close(events)
        }
        return err
}
if !gotDone {
        close(events)
        return ErrEventChannelMissingDoneEvent
}
return nil
```
`ProcessJSONByLine` scans the stream line by line; a line that fails
`json.Unmarshal` makes it return the JSON error at once, and when the scan
loop ends it returns the scanner's error, or nil on plain EOF.  The stream
is modelled as the list of its lines (each either decoding to an `Event T`
or failing to decode) plus a flag saying whether the scanner ends with an
error instead of EOF.  Sending on or closing an already-closed Go channel
panics, which aborts the goroutine; that is the `panicked` outcome. -/

inductive WireLine (T : Type) where
  | ok (e : Event T)
  | bad
  deriving DecidableEq, Repr

inductive TaskErr where
  | jsonError
  | scannerError
  | missingDoneEvent
  deriving DecidableEq, Repr

inductive TaskOutcome (T : Type) where
  | panicked (emitted : List T) (closed : Bool)
  | finished (emitted : List T) (closed : Bool) (gotDone : Bool) (result : Option TaskErr)
  deriving DecidableEq, Repr

def runEventChannelTask {T : Type} (scanErr : Bool) :
    List (WireLine T) → List T → Bool → Bool → TaskOutcome T
  | [], emitted, closed, gotDone =>
    if scanErr then
      if gotDone then .finished emitted closed gotDone (some .scannerError)
      else .finished emitted true gotDone (some .scannerError)
    else
      if gotDone then .finished emitted closed gotDone none
      else .finished emitted true gotDone (some .missingDoneEvent)
  | .bad :: _, emitted, closed, gotDone =>
    if gotDone then .finished emitted closed gotDone (some .jsonError)
    else .finished emitted true gotDone (some .jsonError)
  | .ok e :: rest, emitted, closed, gotDone =>
    if e.guestAction = ActionGuestEvent then
      if closed then .panicked emitted closed
      else runEventChannelTask scanErr rest (emitted ++ [e.actual]) closed gotDone
    else if e.guestAction = ActionDone then
      if closed then .panicked emitted closed
      else runEventChannelTask scanErr rest emitted true true
    else
      runEventChannelTask scanErr rest emitted closed gotDone

/-- One run of the event-channel reader task over a stream. -/
def runEventChannel {T : Type} (lines : List (WireLine T)) (scanErr : Bool) : TaskOutcome T :=
  runEventChannelTask scanErr lines [] false false

/-- `true` iff every line of the stream decodes. -/
def noBad {T : Type} : List (WireLine T) → Bool
  | [] => true
  | .bad :: _ => false
  | .ok _ :: rest => noBad rest

/-- `true` iff no decoded line carries the done action. -/
def noDone {T : Type} : List (WireLine T) → Bool
  | [] => true
  | .bad :: rest => noDone rest
  | .ok e :: rest => if e.guestAction = ActionDone then false else noDone rest

/-- The payloads of the decoded guest events, in stream order. -/
def guestActuals {T : Type} : List (WireLine T) → List T
  | [] => []
  | .bad :: rest => guestActuals rest
  | .ok e :: rest =>
    if e.guestAction = ActionGuestEvent then e.actual :: guestActuals rest
    else guestActuals rest

lemma runEventChannelTask_clean_noDone {T : Type} :
    ∀ (lines : List (WireLine T)) (emitted : List T),
      noBad lines = true → noDone lines = true →
      runEventChannelTask false lines emitted false false =
        .finished (emitted ++ guestActuals lines) true false (some .missingDoneEvent) := by
  intro lines
  induction lines with
  | nil => intro emitted _ _; simp [runEventChannelTask, guestActuals]
  | cons l rest ih =>
    intro emitted hb hd
    match l with
    | .bad => simp [noBad] at hb
    | .ok e =>
      rw [noBad] at hb
      rw [noDone] at hd
      rw [runEventChannelTask]
      by_cases hge : e.guestAction = ActionGuestEvent
      · rw [if_pos hge, if_neg (by simp)]
        rw [ih (emitted ++ [e.actual]) hb (by
          rw [if_neg (by rw [hge]; decide)] at hd
          exact hd)]
        rw [guestActuals, if_pos hge, List.append_assoc]
        rfl
      · have hnd : e.guestAction ≠ ActionDone := by
          intro h
          rw [if_pos h] at hd
          exact absurd hd (by decide)
        rw [if_neg hge, if_neg hnd]
        rw [ih emitted hb (by rw [if_neg hnd] at hd; exact hd)]
        rw [guestActuals, if_neg hge]

lemma runEventChannelTask_missingDone_iff {T : Type} :
    ∀ (lines : List (WireLine T)) (emitted : List T) (gd : Bool) (scanErr : Bool)
      (em : List T) (cl gd' : Bool) (res : Option TaskErr),
      runEventChannelTask scanErr lines emitted gd gd = .finished em cl gd' res →
      (res = some .missingDoneEvent ↔ (gd' = false ∧ noBad lines = true ∧ scanErr = false)) := by
  intro lines
  induction lines with
  | nil =>
    intro emitted gd scanErr em cl gd' res h
    rw [runEventChannelTask] at h
    by_cases hs : scanErr = true <;> by_cases hg : gd = true <;>
      simp only [hs, hg, if_true, if_false, if_pos, if_neg, Bool.false_eq_true,
        Bool.true_eq_false] at h <;>
      rw [TaskOutcome.finished.injEq] at h <;>
      obtain ⟨h1, h2, h3, h4⟩ := h <;>
      subst h3 <;> subst h4 <;>
      simp [noBad, hs, hg]
  | cons l rest ih =>
    intro emitted gd scanErr em cl gd' res h
    match l with
    | .bad =>
      rw [runEventChannelTask] at h
      by_cases hg : gd = true <;>
        simp only [hg, if_true, if_false, Bool.false_eq_true] at h <;>
        rw [TaskOutcome.finished.injEq] at h <;>
        obtain ⟨h1, h2, h3, h4⟩ := h <;>
        subst h4 <;>
        simp [noBad]
    | .ok e =>
      rw [runEventChannelTask] at h
      by_cases hge : e.guestAction = ActionGuestEvent
      · rw [if_pos hge] at h
        by_cases hg : gd = true
        · rw [if_pos hg] at h
          exact absurd h (by simp)
        · rw [if_neg hg] at h
          have hiff := ih (emitted ++ [e.actual]) gd scanErr em cl gd' res h
          rw [hiff]
          simp [noBad]
      · rw [if_neg hge] at h
        by_cases hnd : e.guestAction = ActionDone
        · rw [if_pos hnd] at h
          by_cases hg : gd = true
          · rw [if_pos hg] at h
            exact absurd h (by simp)
          · rw [if_neg hg] at h
            have hiff := ih emitted true scanErr em cl gd' res h
            rw [hiff]
            simp [noBad]
        · rw [if_neg hnd] at h
          have hiff := ih emitted gd scanErr em cl gd' res h
          rw [hiff]
          simp [noBad]

lemma runEventChannelTask_happy {T : Type} :
    ∀ (evs : List (Event T)) (emitted : List T) (z : T),
      (∀ e ∈ evs, e.guestAction = ActionGuestEvent) →
      runEventChannelTask false (evs.map .ok ++ [.ok ⟨ActionDone, z⟩]) emitted false false =
        .finished (emitted ++ evs.map Event.actual) true true none := by
  intro evs
  induction evs with
  | nil =>
    intro emitted z _
    rw [List.map_nil, List.nil_append, runEventChannelTask]
    rw [if_neg (fun hcontra => (by decide : ActionDone ≠ ActionGuestEvent) hcontra),
      if_pos rfl, if_neg (by simp)]
    rw [runEventChannelTask]
    simp
  | cons e evs ih =>
    intro emitted z hall
    have hge : e.guestAction = ActionGuestEvent := hall e (List.mem_cons_self e evs)
    rw [List.map_cons, List.cons_append, runEventChannelTask]
    rw [if_pos hge, if_neg (by simp)]
    rw [ih (emitted ++ [e.actual]) z (fun e2 he2 => hall e2 (List.mem_cons_of_mem e he2))]
    rw [List.map_cons, List.append_assoc]
    rfl

/-- **C2, counterexample.** The claim's biconditional fails: a stream whose
only line fails to decode closes the outChannel without a done event, yet the
task returns the JSON error, not missing-done-event; and after a decoded done
event reading does not stop — a following undecodable line makes the task
return the JSON error rather than a nil result. -/
theorem c2_counterexample :
    runEventChannel (T := Int) [WireLine.bad] false
        = .finished [] true false (some .jsonError)
    ∧ some TaskErr.jsonError ≠ some TaskErr.missingDoneEvent
    ∧ runEventChannel (T := Int) [.ok ⟨ActionDone, 0⟩, .bad] false
        = .finished [] true true (some .jsonError)
    ∧ some TaskErr.jsonError ≠ (none : Option TaskErr) := by
  refine ⟨by decide, by decide, by decide, by decide⟩

/-- **C2 (amended).** For every run of the event-channel reader task: if
end-of-stream (EOF with no decode or scanner error) is reached without a
decoded done event, the task closes the outChannel and returns the
missing-done-event error; if the stream consists of guest events followed by
a done event, the outChannel is closed at the done event and the task
finishes with a nil result after forwarding exactly the guest payloads in
order; and the task returns missing-done-event exactly when the stream ended
at EOF without error and without a done event having been decoded (on a
decode or scanner error the outChannel is still closed, but that error is
returned instead). -/
theorem c2_event_channel_done (T : Type) (lines : List (WireLine T)) (scanErr : Bool) :
    (noBad lines = true → noDone lines = true → scanErr = false →
      runEventChannel lines scanErr =
        .finished (guestActuals lines) true false (some .missingDoneEvent))
    ∧ (∀ (em : List T) (cl gd : Bool) (res : Option TaskErr),
        runEventChannel lines scanErr = .finished em cl gd res →
        (res = some .missingDoneEvent ↔
          (gd = false ∧ noBad lines = true ∧ scanErr = false)))
    ∧ (∀ (evs : List (Event T)) (z : T),
        (∀ e ∈ evs, e.guestAction = ActionGuestEvent) →
        lines = evs.map .ok ++ [.ok ⟨ActionDone, z⟩] → scanErr = false →
        runEventChannel lines scanErr =
          .finished (evs.map Event.actual) true true none) := by
  refine ⟨?_, ?_, ?_⟩
  · intro hb hd hs
    subst hs
    have := runEventChannelTask_clean_noDone lines [] hb hd
    rw [runEventChannel, this, List.nil_append]
  · intro em cl gd res h
    exact runEventChannelTask_missingDone_iff lines [] false scanErr em cl gd res h
  · intro evs z hall hl hs
    subst hs
    subst hl
    have := runEventChannelTask_happy evs [] z hall
    rw [runEventChannel, this, List.nil_append]

/-- Witness for `c2_event_channel_done` at concrete streams over `int`:
two guest events then EOF without done (missing-done-event), and two guest
events then done (nil result, payloads forwarded in order). -/
theorem c2_event_channel_done_witness :
    runEventChannel (T := Int)
        [.ok ⟨ActionGuestEvent, 1⟩, .ok ⟨ActionGuestEvent, 2⟩] false
      = .finished [1, 2] true false (some .missingDoneEvent)
    ∧ (some TaskErr.missingDoneEvent = some TaskErr.missingDoneEvent ↔
        (false = false ∧ noBad (T := Int)
            [.ok ⟨ActionGuestEvent, 1⟩, .ok ⟨ActionGuestEvent, 2⟩] = true ∧ false = false))
    ∧ runEventChannel (T := Int)
        [.ok ⟨ActionGuestEvent, 1⟩, .ok ⟨ActionGuestEvent, 2⟩, .ok ⟨ActionDone, 0⟩] false
      = .finished [1, 2] true true none := by
  refine ⟨?_, ?_, ?_⟩
  · exact (c2_event_channel_done Int
      [.ok ⟨ActionGuestEvent, 1⟩, .ok ⟨ActionGuestEvent, 2⟩] false).1
      (by decide) (by decide) rfl
  · exact (c2_event_channel_done Int
      [.ok ⟨ActionGuestEvent, 1⟩, .ok ⟨ActionGuestEvent, 2⟩] false).2.1
      [1, 2] true false (some .missingDoneEvent) (by decide)
  · exact (c2_event_channel_done Int
      [.ok ⟨ActionGuestEvent, 1⟩, .ok ⟨ActionGuestEvent, 2⟩, .ok ⟨ActionDone, 0⟩] false).2.2
      [⟨ActionGuestEvent, 1⟩, ⟨ActionGuestEvent, 2⟩] 0 (by decide) rfl rfl

/-! ## Options.Start and VM.Wait

Source: `src/qemu/qemu.go` lines 309–367 (`Options.Start`) and 471–484
(`VM.Wait`) with `notifications` (lines 500–513).  Start's body, after a
successful `Cmdline()`, is in order: `expect.NewConsole` (collecting the
serial sinks as console closers), context setup, one `vm.wg.Go` per task,
then `cmd.Start()`; on spawn failure

```go
if err := cmd.Start(); err != nil {
        // Cancel tasks.
        cancel()
        // Wait for tasks to exit. ...
        _ = vm.wg.Wait()
        return nil, err
}
vm.notifs.VMStarted()
c.Tty().Close()
```

Its externally visible effects are modelled as an ordered action trace. -/

inductive StartAction where
  | newConsole
  | registerTasks
  | spawnChild
  | cancelContext
  | joinTasks
  | notifyVMStarted
  | notifyVMExited
  | closeSerialSinks
  | closeChildTTY
  | returnSpawnError
  | returnVM
  deriving DecidableEq, Repr

/-- The ordered effects of `Options.Start` after a successful `Cmdline()`,
depending on whether the child spawn (`cmd.Start()`) succeeds. -/
def startTrace (spawnOk : Bool) : List StartAction :=
  [.newConsole, .registerTasks] ++
    (if spawnOk then [.spawnChild, .notifyVMStarted, .closeChildTTY, .returnVM]
     else [.cancelContext, .joinTasks, .returnSpawnError])

/-- **C3 (the code at the failing input).** When the child spawn fails,
`Options.Start` cancels the context, joins the tasks and returns the spawn
error — but it never delivers a `VMExited` notification and never closes the
serial sinks, and no `VMStarted` is delivered either.  The claim (and the
repository's own tests `TestStartFailsCleanup` / `TestStartFailsUnblockSerial`)
require `VMExited` delivery and sink closure on this path. -/
theorem c3_spawn_failure_divergence :
    startTrace false =
      [.newConsole, .registerTasks, .cancelContext, .joinTasks, .returnSpawnError]
    ∧ StartAction.notifyVMExited ∉ startTrace false
    ∧ StartAction.closeSerialSinks ∉ startTrace false
    ∧ StartAction.notifyVMStarted ∉ startTrace false
    ∧ StartAction.joinTasks ∈ startTrace false := by
  refine ⟨rfl, by decide, by decide, by decide, by decide⟩

/-! `VM.Wait` (qemu.go lines 471–484):

```go
func (v *VM) Wait() error {
        err := v.cmd.Wait()
        v.notifs.VMExited(err)
        if _, cerr := v.Console.ExpectEOF(); cerr != nil && err == nil {
                err = cerr
        }
        v.Console.Close()

        v.cancel()
        if werr := v.wg.Wait(); werr != nil && err == nil {
                err = werr
        }
        return err
}
```

with `notifications.VMExited` sending on and then closing each task's
`VMExited` channel.  A second `exec.Cmd.Wait` returns the "Wait was already
called" error; a send on an already-closed Go channel panics. -/

structure VMState where
  cmdWaited : Bool
  notifsClosed : Bool
  consoleClosed : Bool
  deriving DecidableEq, Repr

inductive WaitResult where
  | ok (err : Option String)
  | panicSendOnClosedChannel
  deriving DecidableEq, Repr

/-- One call of `VM.Wait`.  `childErr` is the child's wait status (`none` for
a clean exit), `hasTasks` whether any task was registered; the task-group
error is taken as nil (tasks that succeed).  On an already-closed console,
`ExpectEOF` fails with a file-already-closed error. -/
def vmWait (childErr : Option String) (hasTasks : Bool) (s : VMState) :
    WaitResult × VMState :=
  let err := if s.cmdWaited then some "exec: Wait was already called" else childErr
  let s1 : VMState := { s with cmdWaited := true }
  if hasTasks ∧ s1.notifsClosed then (.panicSendOnClosedChannel, s1)
  else
    let s2 : VMState := { s1 with notifsClosed := hasTasks || s1.notifsClosed }
    let cerr : Option String := if s2.consoleClosed then some "file already closed" else none
    let err2 := if err = none then cerr else err
    let s3 : VMState := { s2 with consoleClosed := true }
    (.ok err2, s3)

/-- The state of a freshly started VM. -/
def vmStarted : VMState :=
  ⟨false, false, false⟩

/-- **C4 (the code at the failing input).** `VM.Wait` is not idempotent.
With one registered task and a clean child exit, the first `Wait` returns
nil, but the second call re-runs `cmd.Wait` and then panics sending the
error on the already-closed `VMExited` channels; with no registered task the
second call returns the "Wait was already called" error instead of the
memoized nil.  The claim (and the repository's own `TestWaitTwice`) require
the memoized first error. -/
theorem c4_wait_not_idempotent :
    (vmWait none true vmStarted).1 = .ok none
    ∧ (vmWait none true (vmWait none true vmStarted).2).1 = .panicSendOnClosedChannel
    ∧ (vmWait none false (vmWait none false vmStarted).2).1 =
        .ok (some "exec: Wait was already called")
    ∧ WaitResult.ok (some "exec: Wait was already called") ≠ .ok none := by
  refine ⟨rfl, rfl, rfl, by decide⟩

/-! ## The 9p shared-directory configurator (spec-modelled)

The current two-argument `P9Directory(dir, tag)` is not among the sources —
only its caller (`vmtest.go`'s `startVM`, which pairs it with the kernel arg
`VMTEST_SHARED_DIR=tmpdir`) and the spec describe it; the in-tree
`qemu_test.go` holds an older three-argument version that predates the
`VMTEST_SHARED_DIR` convention. -/

/-- Modelled from the spec: `P9Directory(dir, tag)` (spec §4.3) — validates
dir and tag (empty ⇒ *invalid-path* error); allocates an fsdev ID; on arm
emits the `virtio-9p-device` device form, otherwise `virtio-9p-pci`; and
appends the kernel arg `VMTEST_SHARED_DIR=<tag>` (the guest discovery
convention of spec §6). -/
def P9Directory (dir tag : String) : Fn :=
  fun s =>
    if dir.length = 0 then .error (.ErrInvalid "shared directory")
    else if tag.length = 0 then .error (.ErrInvalid "9P directory tag")
    else
      let r := s.1.ID "fsdev"
      let id := r.1
      let alloc := r.2
      let deviceArgs :=
        if s.2.arch = "arm" then
          "virtio-9p-device,fsdev=" ++ id ++ ",mount_tag=" ++ tag
        else
          "virtio-9p-pci,fsdev=" ++ id ++ ",mount_tag=" ++ tag
      let o := s.2.AppendQEMU ["-fsdev",
        "local,id=" ++ id ++ ",path=" ++ dir ++ ",security_model=mapped-file",
        "-device", deviceArgs]
      let o2 := o.AppendKernel ["VMTEST_SHARED_DIR=" ++ tag]
      .ok (alloc, o2)

/-- **C8.** For every non-empty directory and tag, the `P9Directory`
configurator succeeds and appends the kernel argument
`VMTEST_SHARED_DIR=<tag>` to the kernel command line (separated from any
existing kernel args by a space), so the in-guest helper can discover and
mount the shared 9p directory. -/
theorem c8_p9_shared_dir (dir tag : String) (alloc : IDAllocator) (o : Options)
    (hdir : dir.length ≠ 0) (htag : tag.length ≠ 0) :
    ∃ (alloc2 : IDAllocator) (o2 : Options),
      P9Directory dir tag (alloc, o) = .ok (alloc2, o2)
      ∧ o2.KernelArgs =
          (if o.KernelArgs.length = 0 then "" else o.KernelArgs ++ " ")
            ++ ("VMTEST_SHARED_DIR=" ++ tag) := by
  refine ⟨(alloc.ID "fsdev").2,
    ((o.AppendQEMU ["-fsdev",
        "local,id=" ++ (alloc.ID "fsdev").1 ++ ",path=" ++ dir
          ++ ",security_model=mapped-file",
        "-device",
        if o.arch = "arm" then
          "virtio-9p-device,fsdev=" ++ (alloc.ID "fsdev").1 ++ ",mount_tag=" ++ tag
        else
          "virtio-9p-pci,fsdev=" ++ (alloc.ID "fsdev").1 ++ ",mount_tag=" ++ tag]).AppendKernel
      ["VMTEST_SHARED_DIR=" ++ tag]), ?_, ?_⟩
  · unfold P9Directory
    rw [if_neg hdir, if_neg htag]
  · rw [Options.AppendKernel]
    rw [if_neg (by simp)]
    have hX : (Options.AppendQEMU o ["-fsdev",
        "local,id=" ++ (alloc.ID "fsdev").1 ++ ",path=" ++ dir
          ++ ",security_model=mapped-file",
        "-device",
        if o.arch = "arm" then
          "virtio-9p-device,fsdev=" ++ (alloc.ID "fsdev").1 ++ ",mount_tag=" ++ tag
        else
          "virtio-9p-pci,fsdev=" ++ (alloc.ID "fsdev").1 ++ ",mount_tag="
            ++ tag]).KernelArgs = o.KernelArgs := rfl
    rw [hX]
    by_cases hka : o.KernelArgs.length = 0
    · rw [if_pos hka, if_pos hka]
      show goJoin " " ["VMTEST_SHARED_DIR=" ++ tag] = "" ++ ("VMTEST_SHARED_DIR=" ++ tag)
      rw [goJoin]
      apply string_ext
      simp [String.data_append]
    · rw [if_neg hka, if_neg hka]
      show o.KernelArgs ++ " " ++ goJoin " " ["VMTEST_SHARED_DIR=" ++ tag]
        = o.KernelArgs ++ " " ++ ("VMTEST_SHARED_DIR=" ++ tag)
      rw [goJoin]

/-- Witness for `c8_p9_shared_dir` at a concrete directory and tag. -/
theorem c8_p9_shared_dir_witness :
    ∃ (alloc2 : IDAllocator) (o2 : Options),
      P9Directory "/tmp/shared" "tmpdir" (NewIDAllocator, {}) = .ok (alloc2, o2)
      ∧ o2.KernelArgs =
          (if ({} : Options).KernelArgs.length = 0 then ""
           else ({} : Options).KernelArgs ++ " ")
            ++ ("VMTEST_SHARED_DIR=" ++ "tmpdir") :=
  c8_p9_shared_dir "/tmp/shared" "tmpdir" NewIDAllocator {} (by decide) (by decide)

/-! ## Environment seeding with the VM timeout (spec-modelled)

The current `qemu.OptionsFor` — the one that reads `VMTEST_TIMEOUT` and can
fail with `ErrInvalidTimeout` — is not among the sources; only its tests are
(`TestCmdline`'s `env-vmtimeout` and `env-vmtimeout-wrong` cases expect
`"1m30s" ⇒ 90s` and `"900" ⇒ ErrInvalidTimeout`).  The in-tree
`qemu.go` `OptionsFor` (lines 160–184) predates the timeout variable. -/

/-- Unit suffix of a Go duration component and its value in nanoseconds. -/
def parseUnit : List Char → Option (Nat × List Char)
  | 'n' :: 's' :: r => some (1, r)
  | 'u' :: 's' :: r => some (1000, r)
  | 'm' :: 's' :: r => some (1000000, r)
  | 's' :: r => some (1000000000, r)
  | 'm' :: r => some (60000000000, r)
  | 'h' :: r => some (3600000000000, r)
  | _ => none

def parseDurAux : Nat → List Char → Nat → Option Nat
  | _, [], acc => some acc
  | 0, _ :: _, _ => none
  | fuel + 1, l, acc =>
    let ds := l.takeWhile Char.isDigit
    let rest := l.dropWhile Char.isDigit
    if ds.isEmpty then none
    else
      match parseUnit rest with
      | none => none
      | some (mult, rest2) => parseDurAux fuel rest2 (acc + parseNatList ds * mult)

/-- Modelled from the spec: a Go duration string "parsed with standard
suffixes" (`time.ParseDuration` without fractional components, which this
repository never uses): the bare string "0", or one or more
`<digits><unit>` components with unit ns, us, ms, s, m or h; anything else —
in particular a bare number like "900" — is invalid.  The result is in
nanoseconds. -/
def parseDuration (s : String) : Option Nat :=
  if s = "0" then some 0
  else if s = "" then none
  else parseDurAux s.data.length s.data 0

/-- Modelled from the spec: the current `OptionsFor` (spec §4.2) — seeds the
Options from the environment (`VMTEST_QEMU`, `VMTEST_KERNEL`,
`VMTEST_INITRAMFS`, and the VM timeout from `VMTEST_TIMEOUT` parsed as a
duration, failing with *invalid-timeout* when set but invalid), appends the
no-graphics flag, resolves the guest arch, then applies the configurators in
order with first-error abort. -/
def OptionsForSpec (env : String → String) (archFn : String) (fns : List Fn) :
    Except QemuErr Options := do
  let base : Options :=
    { QEMUCommand := env "VMTEST_QEMU"
      Kernel := env "VMTEST_KERNEL"
      Initramfs := env "VMTEST_INITRAMFS"
      QEMUArgs := ["-nographic"] }
  let seeded ←
    if env "VMTEST_TIMEOUT" = "" then pure base
    else
      match parseDuration (env "VMTEST_TIMEOUT") with
      | some d => pure { base with VMTimeout := d }
      | none => throw QemuErr.ErrInvalidTimeout
  let o ← seeded.setArch (GuestArch.Arch archFn env)
  let st ← fns.foldlM (fun st f => f st) (NewIDAllocator, o)
  return st.2

/-- **C9.** `OptionsFor` seeds the Options from environment variables — the
QEMU command, kernel and initramfs paths, and the VM timeout from the
`VMTEST_TIMEOUT` duration variable parsed with standard suffixes (so
`"1m30s"` gives 90 seconds and the suffix-less `"900"` is invalid) — and
when that variable holds an invalid duration string `OptionsFor` fails with
the invalid-timeout error. -/
theorem c9_env_timeout (env : String → String) (archFn : String) (fns : List Fn) :
    (env "VMTEST_TIMEOUT" ≠ "" → parseDuration (env "VMTEST_TIMEOUT") = none →
      OptionsForSpec env archFn fns = .error .ErrInvalidTimeout)
    ∧ (∀ d : Nat, env "VMTEST_TIMEOUT" ≠ "" →
        parseDuration (env "VMTEST_TIMEOUT") = some d →
        SupportedGuestArches.contains archFn = true →
        ∃ o : Options, OptionsForSpec env archFn [] = .ok o
          ∧ o.VMTimeout = d
          ∧ o.QEMUCommand = env "VMTEST_QEMU"
          ∧ o.Kernel = env "VMTEST_KERNEL"
          ∧ o.Initramfs = env "VMTEST_INITRAMFS"
          ∧ o.QEMUArgs = ["-nographic"]
          ∧ o.arch = archFn)
    ∧ parseDuration "1m30s" = some 90000000000
    ∧ parseDuration "900" = none := by
  refine ⟨?_, ?_, by decide, by decide⟩
  · intro h1 h2
    simp only [OptionsForSpec, if_neg h1, h2]
    rfl
  · intro d h1 h2 harch
    have hlen : archFn.length ≠ 0 := by
      intro hcontra
      have he : archFn = "" := by
        cases hstr : archFn with
        | mk data =>
          rw [hstr] at hcontra
          cases data with
          | nil => rfl
          | cons c cs => simp [String.length] at hcontra
      rw [he] at harch
      exact absurd harch (by decide)
    have ha : GuestArch.Arch archFn env = archFn := by
      rw [GuestArch.Arch, if_neg (by
        intro hcontra
        rw [hcontra] at harch
        exact absurd harch (by decide))]
    have hsetarch : ∀ b : Options, b.setArch archFn = .ok { b with arch := archFn } := by
      intro b
      rw [Options.setArch, if_neg hlen, if_neg (by rw [harch]; simp)]
    simp only [OptionsForSpec, if_neg h1, h2, ha, hsetarch, List.foldlM, bind,
      Except.bind, pure, Except.pure]
    exact ⟨_, rfl, rfl, rfl, rfl, rfl, rfl, rfl⟩

/-- Witness for `c9_env_timeout`: an environment with the invalid `"900"`
timeout makes `OptionsFor` fail with the invalid-timeout error, and one with
the valid `"1m30s"` seeds a 90-second (90000000000 ns) VMTimeout. -/
theorem c9_env_timeout_witness :
    OptionsForSpec (fun k => if k = "VMTEST_TIMEOUT" then "900" else "") "x86_64" []
        = .error .ErrInvalidTimeout
    ∧ ∃ o : Options,
        OptionsForSpec (fun k => if k = "VMTEST_TIMEOUT" then "1m30s" else "") "x86_64" []
          = .ok o ∧ o.VMTimeout = 90000000000 :=
  ⟨(c9_env_timeout (fun k => if k = "VMTEST_TIMEOUT" then "900" else "") "x86_64" []).1
      (by decide) (by decide),
   by
     obtain ⟨o, h1, h2, _⟩ :=
       (c9_env_timeout (fun k => if k = "VMTEST_TIMEOUT" then "1m30s" else "")
         "x86_64" []).2.1 90000000000 (by decide) (by decide) (by decide)
     exact ⟨o, h1, h2⟩⟩

end Vmtest
